import Mathlib

/-!
# dummy-web-app: the ANSI-to-HTML converter and the fastfetch cache

A shallow embedding of `main.go`.

* A Go `string` is a sequence of bytes.  Both regular expressions of
  `convertANSIToHTML` mention ASCII bytes only, so matching them rune by rune
  (as Go's `regexp` does) and byte by byte select the same matches; the model
  works on lists of bytes, each byte a natural number.
* `getFastfetchOutput` reads the clock and runs an external command; both are
  explicit inputs of the model, and the number of command invocations is an
  explicit output.
-/

namespace DummyWebApp

/-! ## Strings -/

/-- A Go `string`: a list of bytes. -/
abbrev Bytes := List Nat

/-- The bytes of an ASCII literal. -/
def ascii (s : String) : Bytes := s.toList.map Char.toNat

/-- The escape byte `\x1b`. -/
def ESC : Nat := 27

/-- The byte `[`. -/
def LBRACKET : Nat := 91

/-- The byte `m`. -/
def LETTER_M : Nat := 109

/-- The byte `;`. -/
def SEMICOLON : Nat := 59

/-- The character class `[0-9;]`. -/
def isParamByte (b : Nat) : Bool := (48 ≤ b && b ≤ 57) || b == SEMICOLON

/-! ## The two regular expressions

A compiled expression is modelled by its anchored matcher: given the input
from some position on, it returns the submatches (index 0 is the whole match,
index 1 the first group) and the input left after the match, or `none` when
the expression does not match at that position.  The character class is
followed by `m`, which is not in the class, so the greedy repetition has only
one way to succeed: take the maximal run. -/

/-- An anchored matcher: submatches and remaining input. -/
abbrev Regexp := Bytes → Option (List Bytes × Bytes)

/-- The expression `\x1b\[([0-9;]+)m` (both `ansiRegex` and the callback's `re`). -/
def ansiRegex : Regexp
  | a :: b :: rest =>
    if a = ESC ∧ b = LBRACKET then
      let params := rest.takeWhile isParamByte
      match rest.dropWhile isParamByte with
      | c :: tail =>
        if c = LETTER_M ∧ params ≠ [] then
          some ([ESC :: LBRACKET :: (params ++ [LETTER_M]), params], tail)
        else none
      | [] => none
    else none
  | _ => none

/-- The expression `\x1b\[[0-9;]*m` (`cleanRegex`). -/
def cleanRegex : Regexp
  | a :: b :: rest =>
    if a = ESC ∧ b = LBRACKET then
      let params := rest.takeWhile isParamByte
      match rest.dropWhile isParamByte with
      | c :: tail =>
        if c = LETTER_M then
          some ([ESC :: LBRACKET :: (params ++ [LETTER_M])], tail)
        else none
      | [] => none
    else none
  | _ => none

/-- Go `(*Regexp).FindStringSubmatch`: the submatches of the leftmost match,
the empty (nil) slice when there is none. -/
def FindStringSubmatch (re : Regexp) : Bytes → List Bytes
  | [] => []
  | c :: cs =>
    match re (c :: cs) with
    | some (groups, _) => groups
    | none => FindStringSubmatch re cs

/-- The scanning loop of Go `(*Regexp).ReplaceAllStringFunc`: at each position
try the expression; on a match emit the replacement of the matched text and go
on after the match, otherwise copy one byte.  The first argument bounds the
number of steps. -/
def replaceAllLoop (re : Regexp) (repl : Bytes → Bytes) : Nat → Bytes → Bytes
  | 0, src => src
  | _ + 1, [] => []
  | fuel + 1, c :: cs =>
    match re (c :: cs) with
    | some (groups, rest) => repl (groups.headD []) ++ replaceAllLoop re repl fuel rest
    | none => c :: replaceAllLoop re repl fuel cs

/-- Go `(*Regexp).ReplaceAllStringFunc`.  Every step consumes at least one
byte, so the length of the input is enough steps. -/
def ReplaceAllStringFunc (re : Regexp) (src : Bytes) (repl : Bytes → Bytes) : Bytes :=
  replaceAllLoop re repl src.length src

/-- Go `(*Regexp).ReplaceAllString` with a replacement free of `$`. -/
def ReplaceAllString (re : Regexp) (src : Bytes) (repl : Bytes) : Bytes :=
  ReplaceAllStringFunc re src (fun _ => repl)

/-- Go `strings.Split(s, sep)` for a one-byte separator. -/
def Split (sep : Nat) : Bytes → List Bytes
  | [] => [[]]
  | c :: cs =>
    if c = sep then [] :: Split sep cs
    else
      match Split sep cs with
      | piece :: pieces => (c :: piece) :: pieces
      | [] => [[c]]

/-! ## convertANSIToHTML -/

/-- The table `colorMap` of `convertANSIToHTML`. -/
def colorTable : List (Bytes × Bytes) :=
  [ (ascii "30", ascii "color: #000000"),
    (ascii "31", ascii "color: #ff0000"),
    (ascii "32", ascii "color: #00ff00"),
    (ascii "33", ascii "color: #ffff00"),
    (ascii "34", ascii "color: #0000ff"),
    (ascii "35", ascii "color: #ff00ff"),
    (ascii "36", ascii "color: #00ffff"),
    (ascii "37", ascii "color: #ffffff"),
    (ascii "90", ascii "color: #808080"),
    (ascii "91", ascii "color: #ff6666"),
    (ascii "92", ascii "color: #66ff66"),
    (ascii "93", ascii "color: #ffff66"),
    (ascii "94", ascii "color: #6666ff"),
    (ascii "95", ascii "color: #ff66ff"),
    (ascii "96", ascii "color: #66ffff"),
    (ascii "97", ascii "color: #ffffff") ]

/-- The map lookup `colorMap[code]`. -/
def colorMap (code : Bytes) : Option Bytes := colorTable.lookup code

/-- The loop `for _, code := range codes` of the replace callback. -/
def evalCodes : List Bytes → Bytes
  | [] => []
  | code :: codes =>
    if code = ascii "0" ∨ code = [] then ascii "</span>"
    else
      match colorMap code with
      | some style => ascii "<span style=\"" ++ style ++ ascii "\">"
      | none => evalCodes codes

/-- The callback given to `ReplaceAllStringFunc`. -/
def replaceCallback (m : Bytes) : Bytes :=
  let submatches := FindStringSubmatch ansiRegex m
  if submatches.length > 1 then evalCodes (Split SEMICOLON (submatches.getD 1 []))
  else []

/-- The function `convertANSIToHTML`. -/
def convertANSIToHTML (text : Bytes) : Bytes :=
  let result := ReplaceAllStringFunc ansiRegex text replaceCallback
  ReplaceAllString cleanRegex result []

/-! ## The cache and getFastfetchOutput

Time is counted in nanoseconds, as Go's `time.Duration` does.  One call of
`getFastfetchOutput` reads the clock at most twice and runs the command at most
once; what the clock and the command answer is given with the call. -/

/-- The type `CacheEntry`; `Timestamp` is a clock reading in nanoseconds. -/
structure CacheEntry where
  Output : Bytes
  Timestamp : Int
  deriving DecidableEq, Repr

/-- The type `Server`, without its mutex; a nil `cache` is `none`. -/
structure Server where
  cache : Option CacheEntry
  deriving DecidableEq, Repr

/-- The function `NewServer`. -/
def NewServer : Server := { cache := none }

/-- Go `time.Minute`. -/
def Minute : Int := 60 * 1000000000

/-- The largest `time.Duration`, `1<<63 - 1`. -/
def maxDuration : Int := 9223372036854775807

/-- The smallest `time.Duration`, `-1 << 63`. -/
def minDuration : Int := -9223372036854775808

/-- Go `time.Since` at clock reading `now`: the difference of the two readings,
saturated to the range of `time.Duration`. -/
def Since (now t : Int) : Int :=
  if now - t > maxDuration then maxDuration
  else if now - t < minDuration then minDuration
  else now - t

/-- What the outside world answers during one call of `getFastfetchOutput`. -/
structure Call where
  /-- The clock when `time.Since` is evaluated. -/
  sinceClock : Int
  /-- The pair `cmd.Output()` returns when the command is run: captured output
  and error (`none` is a nil error). -/
  probe : Bytes × Option String
  /-- The clock when `time.Now()` is evaluated, after the command returned. -/
  nowClock : Int
  deriving DecidableEq, Repr

/-- What one call of `getFastfetchOutput` returns and leaves behind. -/
structure Outcome where
  /-- The returned string. -/
  output : Bytes
  /-- The returned error (`none` is nil). -/
  err : Option String
  /-- The server after the call. -/
  server : Server
  /-- How many times the command was run. -/
  probes : Nat
  deriving DecidableEq, Repr

/-- The second half of `getFastfetchOutput`: run the command, then either
return the error or install a new cache entry. -/
def execFastfetch (s : Server) (c : Call) : Outcome :=
  match c.probe with
  | (_, some e) =>
    { output := [], err := some ("failed to execute fastfetch: " ++ e), server := s, probes := 1 }
  | (out, none) =>
    { output := out, err := none,
      server := { cache := some { Output := out, Timestamp := c.nowClock } }, probes := 1 }

/-- The method `getFastfetchOutput`, called sequentially. -/
def getFastfetchOutput (s : Server) (c : Call) : Outcome :=
  match s.cache with
  | some e =>
    if Since c.sinceClock e.Timestamp < Minute then
      { output := e.Output, err := none, server := s, probes := 0 }
    else execFastfetch s c
  | none => execFastfetch s c

/-- A sequence of calls, one after the other, on the same server. -/
def serve : Server → List Call → List Outcome
  | _, [] => []
  | s, c :: calls =>
    (getFastfetchOutput s c) :: serve (getFastfetchOutput s c).server calls

/-- The state of the server after a sequence of calls. -/
def run : Server → List Call → Server
  | s, [] => s
  | s, c :: calls => run (getFastfetchOutput s c).server calls

/-! ## rootHandler

The handler is called with the request and, as `getFastfetchOutput` is, with
what the clock and the command answer during the call.  It returns what was
written to the `http.ResponseWriter`, the server afterwards and the number of
command runs. -/

/-- The bytes (UTF-8) of a Go string given as text. -/
def utf8 (s : String) : Bytes := s.toUTF8.data.toList.map UInt8.toNat

/-- The field of `http.Request` that `rootHandler` reads. -/
structure Request where
  Method : String
  deriving DecidableEq, Repr

/-- What was written to the `http.ResponseWriter`: status line, the
`Content-Type` header and the body. -/
structure Response where
  status : Nat
  contentType : String
  body : Bytes
  deriving DecidableEq, Repr

/-- Go `http.Error(w, msg, code)`: a plain-text response with status `code`
whose body is the message and a newline (`fmt.Fprintln`). -/
def httpError (msg : String) (code : Nat) : Response :=
  { status := code, contentType := "text/plain; charset=utf-8", body := utf8 msg ++ [10] }

/-- What `html/template` writes for the static text of `htmlTemplate` in front
of `<pre class="fastfetch-output">` and behind `</pre>`. -/
structure Page where
  head : Bytes
  tail : Bytes
  deriving DecidableEq, Repr

/-- The call `tmpl.Execute(w, template.HTML(htmlOutput))`: the action stands
in the text of the `<pre>` element, and a value of type `template.HTML` is
written there as it is, not escaped. -/
def executeTemplate (page : Page) (htmlOutput : Bytes) : Bytes :=
  page.head ++ ascii "<pre class=\"fastfetch-output\">" ++ htmlOutput ++ ascii "</pre>"
    ++ page.tail

/-- What one call of `rootHandler` writes and leaves behind. -/
structure Handled where
  /-- The response written. -/
  response : Response
  /-- The server after the call. -/
  server : Server
  /-- How many times the command was run. -/
  probes : Nat
  deriving DecidableEq, Repr

/-- The method `rootHandler`.  The template is a constant that parses, so the
branch `Template error` is not taken. -/
def rootHandler (page : Page) (s : Server) (r : Request) (c : Call) : Handled :=
  if r.Method ≠ "GET" then
    { response := httpError "Method not allowed" 405, server := s, probes := 0 }
  else
    match (getFastfetchOutput s c).err with
    | some err =>
      { response := httpError ("Error getting system info: " ++ err) 500,
        server := (getFastfetchOutput s c).server, probes := (getFastfetchOutput s c).probes }
    | none =>
      { response :=
          { status := 200, contentType := "text/html; charset=utf-8",
            body := executeTemplate page (convertANSIToHTML (getFastfetchOutput s c).output) },
        server := (getFastfetchOutput s c).server, probes := (getFastfetchOutput s c).probes }

/-! ## Vocabulary of the statements -/

/-- The sequence `ESC [ p m` with parameter field `p`. -/
def sgr (p : Bytes) : Bytes := ESC :: LBRACKET :: (p ++ [LETTER_M])

/-- A string over the characters `0-9` and `;`. -/
def ParamString (p : Bytes) : Prop := ∀ b ∈ p, isParamByte b = true

/-- The text `f p₁ ++ t₁ ++ ... ++ f pₙ ++ tₙ` built from the pairs `(pᵢ, tᵢ)`. -/
def weave (f : Bytes → Bytes) : List (Bytes × Bytes) → Bytes
  | [] => []
  | (p, t) :: segs => f p ++ t ++ weave f segs

/-- The opening tag `<span style="...">` carrying a style declaration. -/
def spanTag (style : Bytes) : Bytes := ascii "<span style=\"" ++ style ++ ascii "\">"

/-- What the first pass leaves in place of the sequence `ESC [ p m`: the
sequence itself when `p` is empty (the first expression needs one parameter
byte), the callback's answer otherwise. -/
def firstPass (p : Bytes) : Bytes :=
  if p = [] then sgr [] else evalCodes (Split SEMICOLON p)

/-- What both passes leave in place of the sequence `ESC [ p m`. -/
def emitted (p : Bytes) : Bytes :=
  if p = [] then [] else evalCodes (Split SEMICOLON p)

/-- The text has a substring of the form `ESC [ (digits or ;)* m`. -/
def HasEscapeSequence (s : Bytes) : Prop :=
  ∃ pre p post, ParamString p ∧ s = pre ++ sgr p ++ post

instance (p : Bytes) : Decidable (ParamString p) := by
  unfold ParamString
  infer_instance

/-- The text contains the two bytes `ESC [` next to each other. -/
def HasEscBracket (s : Bytes) : Prop :=
  ∃ pre post, s = pre ++ ESC :: LBRACKET :: post

/-- The expression `\x1b\[[0-9;]*m` matches at some position of the text. -/
def hasCleanMatch : Bytes → Bool
  | [] => false
  | c :: cs => (cleanRegex (c :: cs)).isSome || hasCleanMatch cs

/-- The colour table of the specification: code and colour. -/
def specColorTable : List (String × String) :=
  [ ("30", "#000000"), ("31", "#ff0000"), ("32", "#00ff00"), ("33", "#ffff00"),
    ("34", "#0000ff"), ("35", "#ff00ff"), ("36", "#00ffff"), ("37", "#ffffff"),
    ("90", "#808080"), ("91", "#ff6666"), ("92", "#66ff66"), ("93", "#ffff66"),
    ("94", "#6666ff"), ("95", "#ff66ff"), ("96", "#66ffff"), ("97", "#ffffff") ]

/-- A code the callback acts on: `0`, the empty code, or a key of the colour table. -/
def Recognised (code : Bytes) : Prop :=
  code = ascii "0" ∨ code = [] ∨ (colorMap code).isSome

instance (code : Bytes) : Decidable (Recognised code) := by
  unfold Recognised
  infer_instance

/-- The text `needle` occurs in the text `hay`. -/
def Contains (needle hay : Bytes) : Prop :=
  ∃ pre post, hay = pre ++ needle ++ post

/-- The output of the most recent command run that succeeded, over a sequence
of calls: `last` is that output before the sequence (`none` when no run has
succeeded so far). -/
def lastFetched : Option Bytes → Server → List Call → Option Bytes
  | last, _, [] => last
  | last, s, c :: calls =>
    lastFetched
      (if 0 < (getFastfetchOutput s c).probes ∧ c.probe.2 = none then some c.probe.1 else last)
      (getFastfetchOutput s c).server calls

/-- An anchored matcher that consumes at least one byte whenever it matches. -/
def Consuming (re : Regexp) : Prop :=
  ∀ s groups rest, re s = some (groups, rest) → rest.length < s.length

/-- An anchored matcher that only matches at an `ESC` byte. -/
def EscAnchored (re : Regexp) : Prop :=
  ∀ c cs, c ≠ ESC → re (c :: cs) = none

/-! ## The scanning loop -/

/-- Enough steps: with a consuming matcher, any bound from the length of the
input on gives the same result, so the loop is never cut short. -/
theorem replaceAllLoop_fuel {re : Regexp} (hre : Consuming re) (repl : Bytes → Bytes) :
    ∀ (n m : Nat) (s : Bytes), s.length ≤ n → s.length ≤ m →
      replaceAllLoop re repl n s = replaceAllLoop re repl m s := by
  intro n
  induction n with
  | zero =>
    intro m s hn _
    have hs : s = [] := List.length_eq_zero.mp (Nat.le_zero.mp hn)
    subst hs
    cases m <;> rfl
  | succ n ih =>
    intro m s hn hm
    cases s with
    | nil => cases m <;> rfl
    | cons c cs =>
      cases m with
      | zero => simp at hm
      | succ m =>
        simp only [replaceAllLoop]
        cases hmatch : re (c :: cs) with
        | none =>
          simp only [List.length_cons] at hn hm
          rw [ih m cs (by omega) (by omega)]
        | some gr =>
          obtain ⟨groups, rest⟩ := gr
          have hlt := hre _ _ _ hmatch
          simp only [List.length_cons] at hn hm hlt
          simp only
          rw [ih m rest (by omega) (by omega)]

theorem ReplaceAllStringFunc_nil (re : Regexp) (repl : Bytes → Bytes) :
    ReplaceAllStringFunc re [] repl = [] := rfl

theorem ReplaceAllStringFunc_cons_none {re : Regexp} (repl : Bytes → Bytes) {c : Nat}
    {cs : Bytes} (h : re (c :: cs) = none) :
    ReplaceAllStringFunc re (c :: cs) repl = c :: ReplaceAllStringFunc re cs repl := by
  simp [ReplaceAllStringFunc, replaceAllLoop, h]

theorem ReplaceAllStringFunc_some {re : Regexp} (hre : Consuming re) (repl : Bytes → Bytes)
    {s : Bytes} {groups : List Bytes} {rest : Bytes} (h : re s = some (groups, rest)) :
    ReplaceAllStringFunc re s repl
      = repl (groups.headD []) ++ ReplaceAllStringFunc re rest repl := by
  have hlt := hre _ _ _ h
  cases s with
  | nil => simp at hlt
  | cons c cs =>
    simp only [List.length_cons] at hlt
    simp only [ReplaceAllStringFunc, replaceAllLoop, List.length_cons, h]
    rw [replaceAllLoop_fuel hre repl cs.length rest.length rest (by omega) (Nat.le_refl _)]

/-- Literal text in front of the first `ESC` is copied. -/
theorem ReplaceAllStringFunc_literal {re : Regexp} (hre : EscAnchored re)
    (repl : Bytes → Bytes) (t s : Bytes) (ht : ESC ∉ t) :
    ReplaceAllStringFunc re (t ++ s) repl = t ++ ReplaceAllStringFunc re s repl := by
  induction t with
  | nil => rfl
  | cons c cs ih =>
    have hc : c ≠ ESC := fun h => ht (by simp [h])
    have hcs : ESC ∉ cs := fun h => ht (by simp [h])
    rw [List.cons_append, ReplaceAllStringFunc_cons_none repl (hre c _ hc), ih hcs]
    rfl

theorem ReplaceAllStringFunc_noEsc {re : Regexp} (hre : EscAnchored re)
    (repl : Bytes → Bytes) (t : Bytes) (ht : ESC ∉ t) :
    ReplaceAllStringFunc re t repl = t := by
  have h := ReplaceAllStringFunc_literal hre repl t [] ht
  simpa [ReplaceAllStringFunc_nil] using h

/-- Where the expression matches at no position, the text is returned as it is. -/
theorem ReplaceAllStringFunc_noMatch {re : Regexp} (repl : Bytes → Bytes) (t : Bytes)
    (h : ∀ pre s, t = pre ++ s → re s = none) :
    ReplaceAllStringFunc re t repl = t := by
  induction t with
  | nil => rfl
  | cons c cs ih =>
    rw [ReplaceAllStringFunc_cons_none repl (h [] (c :: cs) rfl)]
    rw [ih (fun pre s hs => h (c :: pre) s (by simp [hs]))]

/-! ## The two expressions -/

theorem isParamByte_M : isParamByte LETTER_M = false := by decide

theorem ParamString.esc_not_mem {p : Bytes} (hp : ParamString p) : ESC ∉ p := by
  intro h
  have := hp ESC h
  revert this
  decide

theorem sgr_append (p r : Bytes) : sgr p ++ r = ESC :: LBRACKET :: (p ++ LETTER_M :: r) := by
  simp [sgr]

theorem takeWhile_param {p : Bytes} (hp : ParamString p) (r : Bytes) :
    (p ++ LETTER_M :: r).takeWhile isParamByte = p := by
  rw [List.takeWhile_append_of_pos hp, List.takeWhile_cons_of_neg (by simp [isParamByte_M])]
  simp

theorem dropWhile_param {p : Bytes} (hp : ParamString p) (r : Bytes) :
    (p ++ LETTER_M :: r).dropWhile isParamByte = LETTER_M :: r := by
  rw [List.dropWhile_append_of_pos hp, List.dropWhile_cons_of_neg (by simp [isParamByte_M])]

/-- The expression `\x1b\[([0-9;]+)m` matches a sequence with a non-empty parameter field. -/
theorem ansiRegex_sgr {p : Bytes} (hp : ParamString p) (hne : p ≠ []) (r : Bytes) :
    ansiRegex (sgr p ++ r) = some ([sgr p, p], r) := by
  rw [sgr_append]
  simp [ansiRegex, takeWhile_param hp, dropWhile_param hp, hne, sgr]

/-- The expression `\x1b\[([0-9;]+)m` does not match the sequence `ESC [ m`. -/
theorem ansiRegex_sgr_nil (r : Bytes) : ansiRegex (sgr [] ++ r) = none := by
  simp [sgr, ansiRegex, List.takeWhile_cons_of_neg, List.dropWhile_cons_of_neg, isParamByte_M]

/-- The expression `\x1b\[[0-9;]*m` matches every sequence. -/
theorem cleanRegex_sgr {p : Bytes} (hp : ParamString p) (r : Bytes) :
    cleanRegex (sgr p ++ r) = some ([sgr p], r) := by
  rw [sgr_append]
  simp [cleanRegex, takeWhile_param hp, dropWhile_param hp, sgr]

/-- What the expression `\x1b\[([0-9;]+)m` matches is a sequence with a non-empty field. -/
theorem ansiRegex_some {s : Bytes} {groups : List Bytes} {rest : Bytes}
    (h : ansiRegex s = some (groups, rest)) :
    ∃ p, ParamString p ∧ p ≠ [] ∧ s = sgr p ++ rest ∧ groups = [sgr p, p] := by
  unfold ansiRegex at h
  split at h
  · rename_i a b r
    split_ifs at h with hab
    obtain ⟨ha, hb⟩ := hab
    simp only at h
    split at h
    · rename_i c tail hdrop
      split_ifs at h with hc
      obtain ⟨hc, hne⟩ := hc
      simp only [Option.some.injEq, Prod.mk.injEq] at h
      obtain ⟨hg, ht⟩ := h
      refine ⟨r.takeWhile isParamByte, fun b hb => List.mem_takeWhile_imp hb, hne, ?_, ?_⟩
      · have := List.takeWhile_append_dropWhile isParamByte r
        rw [hdrop] at this
        rw [sgr_append, ha, hb, ← hc, ← ht, this]
      · rw [← hg]; rfl
    · exact absurd h (by simp)
  · exact absurd h (by simp)

/-- What the expression `\x1b\[[0-9;]*m` matches is a sequence. -/
theorem cleanRegex_some {s : Bytes} {groups : List Bytes} {rest : Bytes}
    (h : cleanRegex s = some (groups, rest)) :
    ∃ p, ParamString p ∧ s = sgr p ++ rest ∧ groups = [sgr p] := by
  unfold cleanRegex at h
  split at h
  · rename_i a b r
    split_ifs at h with hab
    obtain ⟨ha, hb⟩ := hab
    simp only at h
    split at h
    · rename_i c tail hdrop
      split_ifs at h with hc
      simp only [Option.some.injEq, Prod.mk.injEq] at h
      obtain ⟨hg, ht⟩ := h
      refine ⟨r.takeWhile isParamByte, fun b hb => List.mem_takeWhile_imp hb, ?_, ?_⟩
      · have := List.takeWhile_append_dropWhile isParamByte r
        rw [hdrop] at this
        rw [sgr_append, ha, hb, ← hc, ← ht, this]
      · rw [← hg]; rfl
    · exact absurd h (by simp)
  · exact absurd h (by simp)

theorem ansiRegex_consuming : Consuming ansiRegex := by
  intro s groups rest h
  obtain ⟨p, _, _, hs, _⟩ := ansiRegex_some h
  rw [hs]
  simp only [sgr, List.cons_append, List.append_assoc, List.length_cons, List.length_append]
  omega

theorem cleanRegex_consuming : Consuming cleanRegex := by
  intro s groups rest h
  obtain ⟨p, _, hs, _⟩ := cleanRegex_some h
  rw [hs]
  simp only [sgr, List.cons_append, List.append_assoc, List.length_cons, List.length_append]
  omega

theorem ansiRegex_escAnchored : EscAnchored ansiRegex := by
  intro c cs hc
  cases h : ansiRegex (c :: cs) with
  | none => rfl
  | some gr =>
    obtain ⟨p, _, _, hs, _⟩ := ansiRegex_some h
    simp [sgr] at hs
    exact absurd hs.1 hc

theorem cleanRegex_escAnchored : EscAnchored cleanRegex := by
  intro c cs hc
  cases h : cleanRegex (c :: cs) with
  | none => rfl
  | some gr =>
    obtain ⟨p, _, hs, _⟩ := cleanRegex_some h
    simp [sgr] at hs
    exact absurd hs.1 hc

/-! ## The replace callback -/

theorem FindStringSubmatch_sgr {p : Bytes} (hp : ParamString p) (hne : p ≠ []) :
    FindStringSubmatch ansiRegex (sgr p) = [sgr p, p] := by
  have h := ansiRegex_sgr hp hne []
  rw [List.append_nil] at h
  unfold sgr at h ⊢
  simp [FindStringSubmatch, h]

theorem replaceCallback_sgr {p : Bytes} (hp : ParamString p) (hne : p ≠ []) :
    replaceCallback (sgr p) = evalCodes (Split SEMICOLON p) := by
  simp [replaceCallback, FindStringSubmatch_sgr hp hne]

theorem lookup_mem {l : List (Bytes × Bytes)} {k v : Bytes} (h : l.lookup k = some v) :
    (k, v) ∈ l := by
  induction l with
  | nil => simp at h
  | cons e es ih =>
    obtain ⟨k', v'⟩ := e
    rw [List.lookup_cons] at h
    split at h
    · rename_i heq
      have hk : k = k' := eq_of_beq heq
      simp only [Option.some.injEq] at h
      simp [hk, h]
    · exact List.mem_cons_of_mem _ (ih h)

theorem colorMap_mem {code style : Bytes} (h : colorMap code = some style) :
    (code, style) ∈ colorTable := lookup_mem h

/-- The callback answers nothing, a closing tag, or one of the sixteen opening tags. -/
theorem evalCodes_range (codes : List Bytes) :
    evalCodes codes = [] ∨ evalCodes codes = ascii "</span>"
      ∨ ∃ e ∈ colorTable, evalCodes codes = spanTag e.2 := by
  induction codes with
  | nil => exact Or.inl rfl
  | cons code codes ih =>
    unfold evalCodes
    split_ifs with h
    · exact Or.inr (Or.inl rfl)
    · cases hc : colorMap code with
      | none => simpa using ih
      | some style => exact Or.inr (Or.inr ⟨(code, style), colorMap_mem hc, rfl⟩)

theorem colorTable_noEsc : ∀ e ∈ colorTable, ESC ∉ e.2 := by decide

theorem evalCodes_noEsc (codes : List Bytes) : ESC ∉ evalCodes codes := by
  rcases evalCodes_range codes with h | h | ⟨e, he, h⟩
  · rw [h]; simp
  · rw [h]; decide
  · rw [h]
    have h1 : ESC ∉ ascii "<span style=\"" := by decide
    have h2 : ESC ∉ ascii "\">" := by decide
    simp [spanTag, h1, h2, colorTable_noEsc e he]

/-! ## The two passes on literal text interleaved with sequences -/

/-- The first pass on `t₀ ++ ESC[p₁m ++ t₁ ++ ... ++ ESC[pₙm ++ tₙ`. -/
theorem firstPass_weave (segs : List (Bytes × Bytes))
    (h : ∀ seg ∈ segs, ParamString seg.1 ∧ ESC ∉ seg.2) :
    ReplaceAllStringFunc ansiRegex (weave sgr segs) replaceCallback
      = weave firstPass segs := by
  induction segs with
  | nil => rfl
  | cons seg segs ih =>
    obtain ⟨p, t⟩ := seg
    have hp : ParamString p := (h (p, t) (by simp)).1
    have ht : ESC ∉ t := (h (p, t) (by simp)).2
    have ih := ih (fun seg hseg => h seg (List.mem_cons_of_mem _ hseg))
    simp only [weave, List.append_assoc]
    by_cases hne : p = []
    · subst hne
      have hlit : ESC ∉ LBRACKET :: LETTER_M :: t := by
        simp only [List.mem_cons, not_or]
        exact ⟨by decide, by decide, ht⟩
      have hnone := ansiRegex_sgr_nil (t ++ weave sgr segs)
      have hstep := ReplaceAllStringFunc_literal ansiRegex_escAnchored replaceCallback
        (LBRACKET :: LETTER_M :: t) (weave sgr segs) hlit
      simp only [sgr, List.nil_append, List.cons_append] at hnone hstep ⊢
      rw [ReplaceAllStringFunc_cons_none _ hnone, hstep, ih]
      simp [firstPass, sgr]
    · rw [ReplaceAllStringFunc_some ansiRegex_consuming _ (ansiRegex_sgr hp hne _),
        ReplaceAllStringFunc_literal ansiRegex_escAnchored _ _ _ ht, ih]
      simp [firstPass, hne, replaceCallback_sgr hp hne]

/-- The second pass on what the first pass left. -/
theorem secondPass_weave (segs : List (Bytes × Bytes))
    (h : ∀ seg ∈ segs, ParamString seg.1 ∧ ESC ∉ seg.2) :
    ReplaceAllString cleanRegex (weave firstPass segs) [] = weave emitted segs := by
  unfold ReplaceAllString
  induction segs with
  | nil => rfl
  | cons seg segs ih =>
    obtain ⟨p, t⟩ := seg
    have ht : ESC ∉ t := (h (p, t) (by simp)).2
    have ih := ih (fun seg hseg => h seg (List.mem_cons_of_mem _ hseg))
    simp only [weave, List.append_assoc]
    by_cases hne : p = []
    · subst hne
      have hnil : ParamString [] := fun b hb => absurd hb (by simp)
      simp only [firstPass, emitted, if_true]
      rw [ReplaceAllStringFunc_some cleanRegex_consuming _ (cleanRegex_sgr hnil _),
        ReplaceAllStringFunc_literal cleanRegex_escAnchored _ _ _ ht, ih]
    · simp only [firstPass, emitted, hne, if_false]
      rw [ReplaceAllStringFunc_literal cleanRegex_escAnchored _ _ _ (evalCodes_noEsc _),
        ReplaceAllStringFunc_literal cleanRegex_escAnchored _ _ _ ht, ih]

/-- The converter on `t₀ ++ ESC[p₁m ++ t₁ ++ ... ++ ESC[pₙm ++ tₙ`, the `tᵢ` free of
`ESC` and the `pᵢ` over digits and `;` (possibly empty). -/
theorem convert_weave (t0 : Bytes) (segs : List (Bytes × Bytes)) (h0 : ESC ∉ t0)
    (h : ∀ seg ∈ segs, ParamString seg.1 ∧ ESC ∉ seg.2) :
    convertANSIToHTML (t0 ++ weave sgr segs) = t0 ++ weave emitted segs := by
  unfold convertANSIToHTML
  simp only
  rw [ReplaceAllStringFunc_literal ansiRegex_escAnchored _ _ _ h0, firstPass_weave segs h]
  unfold ReplaceAllString
  rw [ReplaceAllStringFunc_literal cleanRegex_escAnchored _ _ _ h0]
  exact congrArg _ (secondPass_weave segs h)

theorem weave_emitted_noEsc (segs : List (Bytes × Bytes))
    (h : ∀ seg ∈ segs, ParamString seg.1 ∧ ESC ∉ seg.2) : ESC ∉ weave emitted segs := by
  induction segs with
  | nil => simp [weave]
  | cons seg segs ih =>
    obtain ⟨p, t⟩ := seg
    have ht : ESC ∉ t := (h (p, t) (by simp)).2
    have ih := ih (fun seg hseg => h seg (List.mem_cons_of_mem _ hseg))
    have he : ESC ∉ emitted p := by
      unfold emitted
      split_ifs
      · simp
      · exact evalCodes_noEsc _
    simp [weave, ht, ih, he]

/-- The converter on one sequence. -/
theorem convert_sgr {p : Bytes} (hp : ParamString p) :
    convertANSIToHTML (sgr p) = emitted p := by
  have h := convert_weave [] [(p, [])] (by simp) (by simpa using hp)
  simpa [weave] using h

theorem evalCodes_skip (pre rest : List Bytes)
    (hpre : ∀ x ∈ pre, ¬ Recognised x) : evalCodes (pre ++ rest) = evalCodes rest := by
  induction pre with
  | nil => rfl
  | cons x xs ih =>
    have hx : ¬ Recognised x := hpre x (by simp)
    have h1 : ¬ (x = ascii "0" ∨ x = []) := fun h =>
      hx (h.elim Or.inl (fun h => Or.inr (Or.inl h)))
    have h2 : colorMap x = none := by
      cases hc : colorMap x with
      | none => rfl
      | some v => exact absurd (Or.inr (Or.inr (by simp [hc]))) hx
    rw [List.cons_append, evalCodes, if_neg h1, h2]
    exact ih (fun y hy => hpre y (List.mem_cons_of_mem _ hy))

theorem evalCodes_unrecognised (codes : List Bytes)
    (h : ∀ x ∈ codes, ¬ Recognised x) : evalCodes codes = [] := by
  have := evalCodes_skip codes [] h
  simpa [evalCodes] using this

theorem HasEscapeSequence.hasCleanMatch {s : Bytes} (h : HasEscapeSequence s) :
    hasCleanMatch s = true := by
  obtain ⟨pre, p, post, hp, rfl⟩ := h
  induction pre with
  | nil =>
    have hm := cleanRegex_sgr hp post
    rw [sgr_append] at hm
    simp only [List.nil_append]
    rw [sgr_append]
    simp [DummyWebApp.hasCleanMatch, hm]
  | cons c cs ih =>
    simp only [List.cons_append, DummyWebApp.hasCleanMatch, Bool.or_eq_true]
    exact Or.inr (by simpa using ih)

theorem noMatch_of_noSequence {t : Bytes} (h : ¬ HasEscapeSequence t) :
    (∀ pre s, t = pre ++ s → ansiRegex s = none)
      ∧ (∀ pre s, t = pre ++ s → cleanRegex s = none) := by
  constructor
  · intro pre s hs
    cases hm : ansiRegex s with
    | none => rfl
    | some gr =>
      obtain ⟨p, hp, _, hsp, _⟩ := ansiRegex_some hm
      exact absurd ⟨pre, p, gr.2, hp, by rw [hs, hsp, List.append_assoc]⟩ h
  · intro pre s hs
    cases hm : cleanRegex s with
    | none => rfl
    | some gr =>
      obtain ⟨p, hp, hsp, _⟩ := cleanRegex_some hm
      exact absurd ⟨pre, p, gr.2, hp, by rw [hs, hsp, List.append_assoc]⟩ h

theorem specColorTable_emitted : ∀ e ∈ specColorTable,
    ParamString (ascii e.1) ∧ ParamString (ascii "0")
      ∧ emitted (ascii e.1) = ascii "<span style=\"color: " ++ ascii e.2 ++ ascii "\">"
      ∧ emitted (ascii "0") = ascii "</span>" := by
  decide

theorem ansiRegex_unterminated {p : Bytes} (hp : ParamString p) :
    ansiRegex (ESC :: LBRACKET :: p) = none := by
  have hdrop : p.dropWhile isParamByte = [] := List.dropWhile_eq_nil_iff.mpr hp
  simp [ansiRegex, hdrop]

theorem cleanRegex_unterminated {p : Bytes} (hp : ParamString p) :
    cleanRegex (ESC :: LBRACKET :: p) = none := by
  have hdrop : p.dropWhile isParamByte = [] := List.dropWhile_eq_nil_iff.mpr hp
  simp [cleanRegex, hdrop]

/-- A sequence that the input ends before its final `m` is copied by both passes. -/
theorem convert_unterminated (t p : Bytes) (ht : ESC ∉ t) (hp : ParamString p) :
    convertANSIToHTML (t ++ ESC :: LBRACKET :: p) = t ++ ESC :: LBRACKET :: p := by
  have htail : ESC ∉ LBRACKET :: p := by
    simp only [List.mem_cons, not_or]
    exact ⟨by decide, hp.esc_not_mem⟩
  unfold convertANSIToHTML ReplaceAllString
  simp only
  rw [ReplaceAllStringFunc_literal ansiRegex_escAnchored _ _ _ ht,
    ReplaceAllStringFunc_cons_none _ (ansiRegex_unterminated hp),
    ReplaceAllStringFunc_noEsc ansiRegex_escAnchored _ _ htail,
    ReplaceAllStringFunc_literal cleanRegex_escAnchored _ _ _ ht,
    ReplaceAllStringFunc_cons_none _ (cleanRegex_unterminated hp),
    ReplaceAllStringFunc_noEsc cleanRegex_escAnchored _ _ htail]

/-! ## Claims on convertANSIToHTML -/

/-- C1: for each of the sixteen codes `c` of the specification's colour table,
with colour `d`, and every text `t` without an `ESC` byte, the input
`ESC [ c m ++ t ++ ESC [ 0 m` converts to `<span style="color: d">`, then `t`,
then `</span>`. -/
theorem C1_color_round_trip (c d : String) (t : Bytes)
    (hcd : (c, d) ∈ specColorTable) (ht : ESC ∉ t) :
    convertANSIToHTML (sgr (ascii c) ++ t ++ sgr (ascii "0"))
      = ascii "<span style=\"color: " ++ ascii d ++ ascii "\">" ++ t ++ ascii "</span>" := by
  obtain ⟨hc, h0, hopen, hclose⟩ := specColorTable_emitted (c, d) hcd
  have h := convert_weave [] [(ascii c, t), (ascii "0", [])] (by simp)
    (by
      intro seg hseg
      simp only [List.mem_cons, List.mem_singleton, List.not_mem_nil, or_false] at hseg
      rcases hseg with rfl | rfl
      · exact ⟨hc, ht⟩
      · exact ⟨h0, by simp⟩)
  simp only [weave, List.nil_append, List.append_nil] at h
  rw [hopen, hclose] at h
  rw [h]

/-- C1 at `"\x1b[31mHELLO\x1b[0m"`: the output is the red opening tag, `HELLO`, the closing tag. -/
theorem C1_color_round_trip_witness :
    ("31", "#ff0000") ∈ specColorTable ∧ ESC ∉ ascii "HELLO"
      ∧ convertANSIToHTML (ascii "\x1b[31mHELLO\x1b[0m")
          = ascii "<span style=\"color: #ff0000\">HELLO</span>" :=
  ⟨by decide, by decide,
    C1_color_round_trip "31" "#ff0000" (ascii "HELLO") (by decide) (by decide)⟩

/-- C2: literal text passes through unchanged and in order.  For literal texts
`t₀ .. tₙ` without an `ESC` byte and sequences `ESC [ pᵢ m` with `pᵢ` non-empty
over digits and `;`, the conversion of `t₀ ++ s₁ ++ t₁ ++ ... ++ sₙ ++ tₙ` is
`t₀ ++ convert s₁ ++ t₁ ++ ... ++ convert sₙ ++ tₙ`, and each `convert sᵢ` is
empty, the closing tag, or the opening tag of one of the sixteen table entries. -/
theorem C2_literal_text_passes_through (t0 : Bytes) (segs : List (Bytes × Bytes))
    (h0 : ESC ∉ t0)
    (h : ∀ seg ∈ segs, (ParamString seg.1 ∧ seg.1 ≠ []) ∧ ESC ∉ seg.2) :
    convertANSIToHTML (t0 ++ weave sgr segs)
        = t0 ++ weave (fun p => convertANSIToHTML (sgr p)) segs
      ∧ (∀ seg ∈ segs,
          convertANSIToHTML (sgr seg.1) = []
            ∨ convertANSIToHTML (sgr seg.1) = ascii "</span>"
            ∨ ∃ e ∈ colorTable, convertANSIToHTML (sgr seg.1) = spanTag e.2)
      ∧ colorTable.length = 16 := by
  have h' : ∀ seg ∈ segs, ParamString seg.1 ∧ ESC ∉ seg.2 :=
    fun seg hseg => ⟨(h seg hseg).1.1, (h seg hseg).2⟩
  refine ⟨?_, ?_, rfl⟩
  · rw [convert_weave t0 segs h0 h']
    congr 1
    clear h0
    induction segs with
    | nil => rfl
    | cons seg segs ih =>
      obtain ⟨p, t⟩ := seg
      have hp : ParamString p := (h (p, t) (by simp)).1.1
      simp only [weave]
      rw [convert_sgr hp,
        ih (fun seg hseg => h seg (List.mem_cons_of_mem _ hseg))
          (fun seg hseg => h' seg (List.mem_cons_of_mem _ hseg))]
  · intro seg hseg
    rw [convert_sgr (h seg hseg).1.1]
    unfold emitted
    rw [if_neg (h seg hseg).1.2]
    exact evalCodes_range _

/-- C2 at `<b>a&b</b> ESC[1;31m "x" < y ESC[0m >`: the markup characters come out as they went in. -/
theorem C2_literal_text_passes_through_witness :
    convertANSIToHTML (ascii "<b>a&b</b>\x1b[1;31m\"x\" < y\x1b[0m>")
      = ascii "<b>a&b</b><span style=\"color: #ff0000\">\"x\" < y</span>>" :=
  (C2_literal_text_passes_through (ascii "<b>a&b</b>")
    [(ascii "1;31", ascii "\"x\" < y"), (ascii "0", ascii ">")]
    (by decide) (by decide)).1

/-- C3: the first recognised code wins.  When the parameter field `p` splits on
`;` into unrecognised codes `pre`, then a recognised code `c`, then any codes
`post`, the sequence converts to `</span>` if `c` is `0` or empty and to the
opening tag of `c` if `c` is a colour code; so `1;31` gives the red opening tag,
`1;31;0` gives what `31` gives and `0;31` gives what `0` gives. -/
theorem C3_first_recognised_code_wins (p : Bytes) (pre : List Bytes) (c : Bytes)
    (post : List Bytes) (hp : ParamString p) (hne : p ≠ [])
    (hsplit : Split SEMICOLON p = pre ++ c :: post)
    (hpre : ∀ x ∈ pre, ¬ Recognised x) :
    ((c = ascii "0" ∨ c = []) → convertANSIToHTML (sgr p) = ascii "</span>")
      ∧ (∀ style, colorMap c = some style → convertANSIToHTML (sgr p) = spanTag style)
      ∧ convertANSIToHTML (sgr (ascii "1;31")) = ascii "<span style=\"color: #ff0000\">"
      ∧ convertANSIToHTML (sgr (ascii "1;31;0")) = convertANSIToHTML (sgr (ascii "31"))
      ∧ convertANSIToHTML (sgr (ascii "0;31")) = convertANSIToHTML (sgr (ascii "0")) := by
  have hconv : convertANSIToHTML (sgr p) = evalCodes (c :: post) := by
    rw [convert_sgr hp, emitted, if_neg hne, hsplit, evalCodes_skip pre _ hpre]
  refine ⟨?_, ?_, by decide, by decide, by decide⟩
  · intro hc
    rw [hconv, evalCodes, if_pos hc]
  · intro style hstyle
    have hc : ¬ (c = ascii "0" ∨ c = []) := by
      have hzero : colorMap (ascii "0") = none := by decide
      have hempty : colorMap [] = none := by decide
      rintro (rfl | rfl)
      · rw [hzero] at hstyle
        exact Option.noConfusion hstyle
      · rw [hempty] at hstyle
        exact Option.noConfusion hstyle
    rw [hconv, evalCodes, if_neg hc, hstyle]
    rfl

/-- C3 at the field `1;31;0`: code `1` is skipped, `31` wins, `0` has no effect. -/
theorem C3_first_recognised_code_wins_witness :
    Split SEMICOLON (ascii "1;31;0") = [ascii "1"] ++ ascii "31" :: [ascii "0"]
      ∧ colorMap (ascii "31") = some (ascii "color: #ff0000")
      ∧ convertANSIToHTML (ascii "\x1b[1;31;0m") = ascii "<span style=\"color: #ff0000\">" :=
  ⟨by decide, by decide,
    (C3_first_recognised_code_wins (ascii "1;31;0") [ascii "1"] (ascii "31") [ascii "0"]
      (by decide) (by decide) (by decide) (by decide)).2.1 (ascii "color: #ff0000")
      (by decide)⟩

/-- C4: unsupported codes are stripped.  When no code of the non-empty field `p`
is recognised and `a`, `b` hold no `ESC` byte, `a ++ ESC [ p m ++ b` converts to
`a ++ b`. -/
theorem C4_unsupported_codes_stripped (p a b : Bytes) (hp : ParamString p) (hne : p ≠ [])
    (hcodes : ∀ x ∈ Split SEMICOLON p, ¬ Recognised x) (ha : ESC ∉ a) (hb : ESC ∉ b) :
    convertANSIToHTML (a ++ sgr p ++ b) = a ++ b := by
  have h := convert_weave a [(p, b)] ha (by simpa using ⟨hp, hb⟩)
  simp only [weave, List.append_nil] at h
  rw [List.append_assoc, h, emitted, if_neg hne, evalCodes_unrecognised _ hcodes]
  rfl

/-- C4 at `"\x1b[99mX"`: the output is `X`. -/
theorem C4_unsupported_codes_stripped_witness :
    (∀ x ∈ Split SEMICOLON (ascii "99"), ¬ Recognised x)
      ∧ convertANSIToHTML (ascii "\x1b[99mX") = ascii "X" :=
  ⟨by decide,
    C4_unsupported_codes_stripped (ascii "99") [] (ascii "X") (by decide) (by decide)
      (by decide) (by decide) (by decide)⟩

/-- C5: on the input `ESC [ ESC [ m m` the first pass finds nothing, the second
pass removes the inner `ESC [ m`, and the output is `ESC [ m`: it still holds a
substring of the form `ESC [ (digits or ;)* m`. -/
theorem C5_nested_sequence_survives :
    convertANSIToHTML (ascii "\x1b[\x1b[mm") = ascii "\x1b[m"
      ∧ HasEscapeSequence (convertANSIToHTML (ascii "\x1b[\x1b[mm")) :=
  ⟨by decide, ⟨[], [], [], by decide, by decide⟩⟩

/-- C6 as stated fails: the unterminated `ESC [ 3 1` and the malformed
`ESC [ 1 : 2 m` come out as they went in, `ESC [` included. -/
theorem C6_malformed_sequence_kept :
    convertANSIToHTML (ascii "\x1b[31") = ascii "\x1b[31"
      ∧ convertANSIToHTML (ascii "\x1b[1:2m") = ascii "\x1b[1:2m"
      ∧ HasEscBracket (convertANSIToHTML (ascii "\x1b[31")) :=
  ⟨by decide, by decide, ⟨[], ascii "31", by decide⟩⟩

/-- C6, amended: when the input is literal text without `ESC` bytes interleaved
with complete sequences `ESC [ p m`, `p` over digits and `;` (possibly empty),
the output holds no `ESC` byte, so no `ESC [` either; and a sequence `ESC [ p`
that the input ends before its final `m`, after text without `ESC` bytes, is
not removed: that input is returned as it is. -/
theorem C6_complete_sequences_removed (t0 : Bytes) (segs : List (Bytes × Bytes))
    (h0 : ESC ∉ t0) (h : ∀ seg ∈ segs, ParamString seg.1 ∧ ESC ∉ seg.2) :
    ESC ∉ convertANSIToHTML (t0 ++ weave sgr segs)
      ∧ ¬ HasEscBracket (convertANSIToHTML (t0 ++ weave sgr segs))
      ∧ ∀ p, ParamString p →
          convertANSIToHTML (t0 ++ ESC :: LBRACKET :: p) = t0 ++ ESC :: LBRACKET :: p := by
  have hno : ESC ∉ convertANSIToHTML (t0 ++ weave sgr segs) := by
    rw [convert_weave t0 segs h0 h]
    simp [h0, weave_emitted_noEsc segs h]
  refine ⟨hno, ?_, fun p hp => convert_unterminated t0 p h0 hp⟩
  rintro ⟨pre, post, hpp⟩
  rw [hpp] at hno
  exact hno (by simp)

/-- C6 amended at `a ESC[m b ESC[5;7m c ESC[32m`: no `ESC` byte is left; and at
`a ESC[31`: nothing is removed. -/
theorem C6_complete_sequences_removed_witness :
    ESC ∉ convertANSIToHTML (ascii "a\x1b[mb\x1b[5;7mc\x1b[32m")
      ∧ ¬ HasEscBracket (convertANSIToHTML (ascii "a\x1b[mb\x1b[5;7mc\x1b[32m"))
      ∧ convertANSIToHTML (ascii "a\x1b[31") = ascii "a\x1b[31" :=
  ⟨(C6_complete_sequences_removed (ascii "a")
      [([], ascii "b"), (ascii "5;7", ascii "c"), (ascii "32", [])]
      (by decide) (by decide)).1,
    (C6_complete_sequences_removed (ascii "a")
      [([], ascii "b"), (ascii "5;7", ascii "c"), (ascii "32", [])]
      (by decide) (by decide)).2.1,
    (C6_complete_sequences_removed (ascii "a")
      [([], ascii "b"), (ascii "5;7", ascii "c"), (ascii "32", [])]
      (by decide) (by decide)).2.2 (ascii "31") (by decide)⟩

/-- C7: the converter is the identity on escape-free text: a text with no
substring of the form `ESC [ (digits or ;)* m`, in particular a text with no
`ESC` byte, is returned unchanged. -/
theorem C7_identity_on_escape_free_text (t : Bytes) :
    (¬ HasEscapeSequence t → convertANSIToHTML t = t)
      ∧ (ESC ∉ t → convertANSIToHTML t = t) := by
  have key : ¬ HasEscapeSequence t → convertANSIToHTML t = t := by
    intro h
    obtain ⟨h1, h2⟩ := noMatch_of_noSequence h
    unfold convertANSIToHTML ReplaceAllString
    simp only
    rw [ReplaceAllStringFunc_noMatch _ t h1, ReplaceAllStringFunc_noMatch _ t h2]
  refine ⟨key, fun hesc => key ?_⟩
  rintro ⟨pre, p, post, _, rfl⟩
  exact hesc (by simp [sgr])

/-- C7 at `a ESC [ 3 1 ; b m` (an `ESC` byte, but no sequence) and at `<b>plain</b>`. -/
theorem C7_identity_on_escape_free_text_witness :
    convertANSIToHTML (ascii "a\x1b[31;bm") = ascii "a\x1b[31;bm"
      ∧ convertANSIToHTML (ascii "<b>plain</b>") = ascii "<b>plain</b>" :=
  ⟨(C7_identity_on_escape_free_text (ascii "a\x1b[31;bm")).1
      (fun h => absurd h.hasCleanMatch (by decide)),
    (C7_identity_on_escape_free_text (ascii "<b>plain</b>")).2 (by decide)⟩

/-! ## Claims on getFastfetchOutput -/

theorem Since_lt_Minute (now t : Int) : Since now t < Minute ↔ now - t < Minute := by
  unfold Since Minute maxDuration minDuration
  split_ifs <;> omega

theorem getFastfetchOutput_fresh {s : Server} {e : CacheEntry} (c : Call)
    (hs : s.cache = some e) (hc : c.sinceClock - e.Timestamp < Minute) :
    getFastfetchOutput s c = { output := e.Output, err := none, server := s, probes := 0 } := by
  unfold getFastfetchOutput
  rw [hs]
  simp only
  rw [if_pos ((Since_lt_Minute _ _).mpr hc)]

theorem getFastfetchOutput_stale {s : Server} (c : Call)
    (hs : s.cache = none ∨ ∃ e, s.cache = some e ∧ Minute ≤ c.sinceClock - e.Timestamp) :
    getFastfetchOutput s c = execFastfetch s c := by
  unfold getFastfetchOutput
  rcases hs with hs | ⟨e, hs, he⟩
  · rw [hs]
  · rw [hs]
    simp only
    rw [if_neg (fun h => absurd ((Since_lt_Minute _ _).mp h) (by omega))]

theorem serve_fresh {s : Server} {e : CacheEntry} (hs : s.cache = some e) (calls : List Call)
    (hcalls : ∀ c ∈ calls, c.sinceClock - e.Timestamp < Minute) :
    serve s calls
      = calls.map (fun _ => { output := e.Output, err := none, server := s, probes := 0 }) := by
  induction calls with
  | nil => rfl
  | cons c calls ih =>
    have hc := getFastfetchOutput_fresh c hs (hcalls c (by simp))
    simp only [serve, List.map_cons]
    rw [hc]
    simp only
    rw [ih (fun c' hc' => hcalls c' (List.mem_cons_of_mem _ hc'))]

/-- C8: freshness.  If the cache holds entry `e` and the clock is less than 60s
past `e.Timestamp`, the call returns `e.Output` and no error, does not run the
command and leaves the server as it was.  Hence after a successful fetch, every
call of a sequence whose clock readings all stay less than 60s past the fetch
returns the fetched output, with no error, no command run and the entry of the
fetch still in the cache. -/
theorem C8_freshness (s : Server) (e : CacheEntry) (c : Call)
    (hs : s.cache = some e) (hc : c.sinceClock - e.Timestamp < Minute) :
    getFastfetchOutput s c = { output := e.Output, err := none, server := s, probes := 0 }
      ∧ ∀ (s0 : Server) (c0 : Call) (calls : List Call),
          (getFastfetchOutput s0 c0).probes = 1 → c0.probe.2 = none →
          (∀ c' ∈ calls, c'.sinceClock - c0.nowClock < Minute) →
          (getFastfetchOutput s0 c0).output = c0.probe.1
            ∧ (serve (getFastfetchOutput s0 c0).server calls).length = calls.length
            ∧ ((serve (getFastfetchOutput s0 c0).server calls).map Outcome.probes).sum = 0
            ∧ ∀ o ∈ serve (getFastfetchOutput s0 c0).server calls,
                o.output = (getFastfetchOutput s0 c0).output ∧ o.err = none ∧ o.probes = 0
                  ∧ o.server = (getFastfetchOutput s0 c0).server := by
  refine ⟨getFastfetchOutput_fresh c hs hc, ?_⟩
  intro s0 c0 calls hprobe hok hcalls
  have hexec : getFastfetchOutput s0 c0
      = { output := c0.probe.1, err := none,
          server := { cache := some { Output := c0.probe.1, Timestamp := c0.nowClock } },
          probes := 1 } := by
    rcases hpr : c0.probe with ⟨out, perr⟩
    simp only [hpr] at hok
    subst hok
    unfold getFastfetchOutput at hprobe ⊢
    cases hcache : s0.cache with
    | none => simp [execFastfetch, hpr]
    | some e0 =>
      rw [hcache] at hprobe
      by_cases hfresh : Since c0.sinceClock e0.Timestamp < Minute
      · simp [hfresh] at hprobe
      · simp [hfresh, execFastfetch, hpr]
  rw [hexec]
  rw [serve_fresh (e := { Output := c0.probe.1, Timestamp := c0.nowClock }) rfl calls hcalls]
  refine ⟨rfl, by simp, by simp, ?_⟩
  intro o ho
  obtain ⟨_, _, rfl⟩ := List.mem_map.mp ho
  exact ⟨rfl, rfl, rfl, rfl⟩

/-- C8 at an entry stamped 1000ns and a call 59.999999999s later; and at a
first fetch on a new server followed by two calls 1s and 59s after it. -/
theorem C8_freshness_witness :
    getFastfetchOutput { cache := some { Output := ascii "OS: Linux", Timestamp := 1000 } }
        { sinceClock := 60000000999, probe := (ascii "other", none), nowClock := 60000000999 }
      = { output := ascii "OS: Linux", err := none,
          server := { cache := some { Output := ascii "OS: Linux", Timestamp := 1000 } },
          probes := 0 }
    ∧ ((serve (getFastfetchOutput NewServer
          { sinceClock := 0, probe := (ascii "first", none), nowClock := 5 }).server
        [ { sinceClock := 1000000005, probe := (ascii "second", none), nowClock := 1000000006 },
          { sinceClock := 59000000005, probe := ([], some "exit status 1"),
            nowClock := 59000000006 } ]).map Outcome.probes).sum = 0 :=
  ⟨(C8_freshness { cache := some { Output := ascii "OS: Linux", Timestamp := 1000 } }
      { Output := ascii "OS: Linux", Timestamp := 1000 }
      { sinceClock := 60000000999, probe := (ascii "other", none), nowClock := 60000000999 }
      rfl (by decide)).1,
    ((C8_freshness { cache := some { Output := ascii "OS: Linux", Timestamp := 1000 } }
      { Output := ascii "OS: Linux", Timestamp := 1000 }
      { sinceClock := 60000000999, probe := (ascii "other", none), nowClock := 60000000999 }
      rfl (by decide)).2 NewServer
        { sinceClock := 0, probe := (ascii "first", none), nowClock := 5 }
        [ { sinceClock := 1000000005, probe := (ascii "second", none), nowClock := 1000000006 },
          { sinceClock := 59000000005, probe := ([], some "exit status 1"),
            nowClock := 59000000006 } ]
        (by decide) (by decide) (by decide)).2.2.1⟩

/-- C9: expiry.  If the cache is empty, or holds an entry stamped `t0` and the
clock is at least 60s past `t0`, one call runs the command exactly once; if the
command succeeds with output `o`, the call returns `o` and no error and the
cache then holds exactly the entry of `o` and the clock reading taken after the
command returned, so that a following call less than 60s past that reading is
served `o` without running the command. -/
theorem C9_expiry (s : Server) (c : Call)
    (hs : s.cache = none ∨ ∃ e, s.cache = some e ∧ Minute ≤ c.sinceClock - e.Timestamp) :
    (getFastfetchOutput s c).probes = 1
      ∧ ∀ o, c.probe = (o, none) →
          getFastfetchOutput s c
              = { output := o, err := none,
                  server := { cache := some { Output := o, Timestamp := c.nowClock } },
                  probes := 1 }
            ∧ ∀ c' : Call, c'.sinceClock - c.nowClock < Minute →
                getFastfetchOutput (getFastfetchOutput s c).server c'
                  = { output := o, err := none,
                      server := { cache := some { Output := o, Timestamp := c.nowClock } },
                      probes := 0 } := by
  rw [getFastfetchOutput_stale c hs]
  constructor
  · unfold execFastfetch
    split <;> rfl
  · intro o ho
    have hexec : execFastfetch s c
        = { output := o, err := none,
            server := { cache := some { Output := o, Timestamp := c.nowClock } },
            probes := 1 } := by
      simp [execFastfetch, ho]
    refine ⟨hexec, fun c' hc' => ?_⟩
    rw [hexec]
    exact getFastfetchOutput_fresh (e := { Output := o, Timestamp := c.nowClock }) c' rfl hc'

/-- C9 at an entry stamped 0 and a call 61s later whose command prints `new`. -/
theorem C9_expiry_witness :
    Minute ≤ (61000000000 : Int) - 0
      ∧ getFastfetchOutput { cache := some { Output := ascii "old", Timestamp := 0 } }
          { sinceClock := 61000000000, probe := (ascii "new", none), nowClock := 61000000007 }
        = { output := ascii "new", err := none,
            server := { cache := some { Output := ascii "new", Timestamp := 61000000007 } },
            probes := 1 } :=
  ⟨by decide,
    ((C9_expiry { cache := some { Output := ascii "old", Timestamp := 0 } }
      { sinceClock := 61000000000, probe := (ascii "new", none), nowClock := 61000000007 }
      (Or.inr ⟨{ Output := ascii "old", Timestamp := 0 }, rfl, by decide⟩)).2
        (ascii "new") rfl).1⟩

/-- C10: a failing command is not masked.  Whenever a call runs the command and
the command fails, the call returns the empty string with a non-nil error (the
text `failed to execute fastfetch: ` and the command's error), the server is
exactly what it was before the call, whether its cache was empty or stale, and
the command was run once only. -/
theorem C10_probe_failure (s : Server) (c : Call) (out : Bytes) (msg : String)
    (hrun : 0 < (getFastfetchOutput s c).probes) (hfail : c.probe = (out, some msg)) :
    getFastfetchOutput s c
      = { output := [], err := some ("failed to execute fastfetch: " ++ msg),
          server := s, probes := 1 } := by
  unfold getFastfetchOutput at hrun ⊢
  cases hcache : s.cache with
  | none => simp [execFastfetch, hfail]
  | some e =>
    rw [hcache] at hrun
    by_cases hfresh : Since c.sinceClock e.Timestamp < Minute
    · simp [hfresh] at hrun
    · simp [hfresh, execFastfetch, hfail]

/-- C10 at a stale entry and a command that fails after printing `partial`. -/
theorem C10_probe_failure_witness :
    getFastfetchOutput { cache := some { Output := ascii "stale", Timestamp := 0 } }
        { sinceClock := 60000000000, probe := (ascii "partial", some "exit status 1"),
          nowClock := 60000000001 }
      = { output := [], err := some "failed to execute fastfetch: exit status 1",
          server := { cache := some { Output := ascii "stale", Timestamp := 0 } },
          probes := 1 } :=
  C10_probe_failure { cache := some { Output := ascii "stale", Timestamp := 0 } }
    { sinceClock := 60000000000, probe := (ascii "partial", some "exit status 1"),
      nowClock := 60000000001 }
    (ascii "partial") "exit status 1" (by decide) rfl

/-! ## Claims on rootHandler -/

/-- C11: a GET request on a new server whose command prints
`<script>alert(1)</script>` is answered with a page whose `<pre>` element holds
`<script>alert(1)</script>` as it is: the text of the command is not escaped. -/
theorem C11_script_reaches_page (page : Page) :
    (rootHandler page NewServer { Method := "GET" }
        { sinceClock := 0, probe := (ascii "<script>alert(1)</script>", none),
          nowClock := 0 }).response.body
      = page.head ++ ascii "<pre class=\"fastfetch-output\">"
          ++ ascii "<script>alert(1)</script>" ++ ascii "</pre>" ++ page.tail
      ∧ Contains (ascii "<script>")
          (rootHandler page NewServer { Method := "GET" }
            { sinceClock := 0, probe := (ascii "<script>alert(1)</script>", none),
              nowClock := 0 }).response.body := by
  have hbody : (rootHandler page NewServer { Method := "GET" }
        { sinceClock := 0, probe := (ascii "<script>alert(1)</script>", none),
          nowClock := 0 }).response.body
      = page.head ++ ascii "<pre class=\"fastfetch-output\">"
          ++ ascii "<script>alert(1)</script>" ++ ascii "</pre>" ++ page.tail := rfl
  refine ⟨hbody, page.head ++ ascii "<pre class=\"fastfetch-output\">",
    ascii "alert(1)</script>" ++ ascii "</pre>" ++ page.tail, ?_⟩
  rw [hbody]
  have hsplit : ascii "<script>alert(1)</script>"
      = ascii "<script>" ++ ascii "alert(1)</script>" := by decide
  rw [hsplit]
  simp only [List.append_assoc]

/-- C12: for every request whose method is not `GET`, `rootHandler` answers
with status 405 (`Method not allowed`), leaves the server as it was and does
not run the command, whatever the cache holds. -/
theorem C12_method_not_allowed (page : Page) (s : Server) (r : Request) (c : Call)
    (hm : r.Method ≠ "GET") :
    rootHandler page s r c
        = { response := httpError "Method not allowed" 405, server := s, probes := 0 }
      ∧ (rootHandler page s r c).response.status = 405
      ∧ (rootHandler page s r c).server = s
      ∧ (rootHandler page s r c).probes = 0 := by
  have h : rootHandler page s r c
      = { response := httpError "Method not allowed" 405, server := s, probes := 0 } := by
    unfold rootHandler
    rw [if_pos hm]
  rw [h]
  exact ⟨rfl, rfl, rfl, rfl⟩

/-- C12 at a POST request on a server with a stale entry and a command that would succeed. -/
theorem C12_method_not_allowed_witness :
    rootHandler { head := [], tail := [] }
        { cache := some { Output := ascii "old", Timestamp := 0 } } { Method := "POST" }
        { sinceClock := 61000000000, probe := (ascii "new", none), nowClock := 61000000001 }
      = { response := { status := 405, contentType := "text/plain; charset=utf-8",
                        body := ascii "Method not allowed\n" },
          server := { cache := some { Output := ascii "old", Timestamp := 0 } },
          probes := 0 } :=
  (C12_method_not_allowed { head := [], tail := [] }
    { cache := some { Output := ascii "old", Timestamp := 0 } } { Method := "POST" }
    { sinceClock := 61000000000, probe := (ascii "new", none), nowClock := 61000000001 }
    (by decide)).1

theorem getFastfetchOutput_err {s : Server} {c : Call} {e : String}
    (h : (getFastfetchOutput s c).err = some e) :
    ∃ msg, c.probe.2 = some msg ∧ e = "failed to execute fastfetch: " ++ msg := by
  have hexec : (execFastfetch s c).err = some e →
      ∃ msg, c.probe.2 = some msg ∧ e = "failed to execute fastfetch: " ++ msg := by
    intro h
    rcases hpr : c.probe with ⟨out, perr⟩
    cases perr with
    | none => simp [execFastfetch, hpr] at h
    | some msg =>
      simp only [execFastfetch, hpr, Option.some.injEq] at h
      exact ⟨msg, rfl, h.symm⟩
  unfold getFastfetchOutput at h
  cases hcache : s.cache with
  | none =>
    rw [hcache] at h
    exact hexec h
  | some entry =>
    rw [hcache] at h
    by_cases hfresh : Since c.sinceClock entry.Timestamp < Minute
    · simp [hfresh] at h
    · simp only [hfresh, if_false] at h
      exact hexec h

/-- C13: for a GET request on which `getFastfetchOutput` returns an error, the
command has failed with some message and `rootHandler` answers with status 500
and the plain-text body `Error getting system info: failed to execute
fastfetch: `, the message, and the newline `http.Error` ends the line with; no
page is written.  For a GET request on which it returns output, the answer has
status 200, `Content-Type: text/html; charset=utf-8` and the page as body. -/
theorem C13_probe_error_is_500 (page : Page) (s : Server) (r : Request) (c : Call)
    (hget : r.Method = "GET") :
    (∀ e, (getFastfetchOutput s c).err = some e →
        ∃ msg, c.probe.2 = some msg
          ∧ (rootHandler page s r c).response
              = { status := 500, contentType := "text/plain; charset=utf-8",
                  body := utf8 ("Error getting system info: failed to execute fastfetch: "
                            ++ msg) ++ [10] })
      ∧ ((getFastfetchOutput s c).err = none →
          (rootHandler page s r c).response
            = { status := 200, contentType := "text/html; charset=utf-8",
                body := executeTemplate page
                  (convertANSIToHTML (getFastfetchOutput s c).output) }) := by
  have hm : ¬ r.Method ≠ "GET" := fun h => h hget
  constructor
  · intro e he
    obtain ⟨msg, hmsg, hemsg⟩ := getFastfetchOutput_err he
    refine ⟨msg, hmsg, ?_⟩
    unfold rootHandler
    rw [if_neg hm, he]
    simp only [httpError]
    rw [hemsg, ← String.append_assoc]
    rfl
  · intro he
    unfold rootHandler
    rw [if_neg hm, he]

/-- C13 at a GET request on a new server whose command fails with `exit status 1`. -/
theorem C13_probe_error_is_500_witness :
    (rootHandler { head := ascii "<html>", tail := ascii "</html>" } NewServer
        { Method := "GET" }
        { sinceClock := 0, probe := ([], some "exit status 1"), nowClock := 0 }).response
      = { status := 500, contentType := "text/plain; charset=utf-8",
          body := utf8 "Error getting system info: failed to execute fastfetch: exit status 1\n" } :=
  ((C13_probe_error_is_500 { head := ascii "<html>", tail := ascii "</html>" } NewServer
      { Method := "GET" }
      { sinceClock := 0, probe := ([], some "exit status 1"), nowClock := 0 } rfl).1
    "failed to execute fastfetch: exit status 1" (by decide)).elim
    (fun msg h => by
      have hmsg : msg = "exit status 1" := by
        have := h.1
        simp only [Option.some.injEq] at this
        exact this.symm
      rw [h.2, hmsg]
      decide)

/-! ## The freshness boundary and the life of cache entries -/

/-- C15 as stated fails: with an entry stamped 0 and the clock at exactly 60s,
the call runs the command and replaces the entry. -/
theorem C15_exactly_60s_refetches :
    (60000000000 : Int) - 0 = Minute
      ∧ getFastfetchOutput { cache := some { Output := ascii "old", Timestamp := 0 } }
          { sinceClock := 60000000000, probe := (ascii "new", none), nowClock := 60000000001 }
        = { output := ascii "new", err := none,
            server := { cache := some { Output := ascii "new", Timestamp := 60000000001 } },
            probes := 1 } :=
  ⟨by decide, by decide⟩

/-- C15, amended: an entry is served while its age is below 60s and replaced
once its age has reached 60s.  For an entry stamped `t0`, a call with the clock
at exactly `t0 + 60s` runs the command once and, when the command succeeds,
returns its output and installs the new entry; a call with the clock 1ns
earlier returns the cached output, runs nothing and leaves the server as it
was. -/
theorem C15_freshness_boundary (s : Server) (e : CacheEntry) (c : Call)
    (hs : s.cache = some e) :
    (c.sinceClock - e.Timestamp = Minute →
        (getFastfetchOutput s c).probes = 1
          ∧ ∀ o, c.probe = (o, none) →
              getFastfetchOutput s c
                = { output := o, err := none,
                    server := { cache := some { Output := o, Timestamp := c.nowClock } },
                    probes := 1 })
      ∧ (c.sinceClock - e.Timestamp = Minute - 1 →
          getFastfetchOutput s c
            = { output := e.Output, err := none, server := s, probes := 0 }) := by
  constructor
  · intro hage
    rw [getFastfetchOutput_stale c (Or.inr ⟨e, hs, by omega⟩)]
    constructor
    · unfold execFastfetch
      split <;> rfl
    · intro o ho
      simp [execFastfetch, ho]
  · intro hage
    exact getFastfetchOutput_fresh c hs (by omega)

/-- C15 amended at an entry stamped 5: the clock at `5 + 60s` and at `5 + 60s - 1ns`. -/
theorem C15_freshness_boundary_witness :
    (getFastfetchOutput { cache := some { Output := ascii "old", Timestamp := 5 } }
        { sinceClock := 60000000005, probe := (ascii "new", none), nowClock := 60000000009 }).probes
        = 1
      ∧ getFastfetchOutput { cache := some { Output := ascii "old", Timestamp := 5 } }
          { sinceClock := 60000000004, probe := (ascii "new", none), nowClock := 60000000009 }
        = { output := ascii "old", err := none,
            server := { cache := some { Output := ascii "old", Timestamp := 5 } },
            probes := 0 } :=
  ⟨((C15_freshness_boundary { cache := some { Output := ascii "old", Timestamp := 5 } }
      { Output := ascii "old", Timestamp := 5 }
      { sinceClock := 60000000005, probe := (ascii "new", none), nowClock := 60000000009 }
      rfl).1 (by decide)).1,
    (C15_freshness_boundary { cache := some { Output := ascii "old", Timestamp := 5 } }
      { Output := ascii "old", Timestamp := 5 }
      { sinceClock := 60000000004, probe := (ascii "new", none), nowClock := 60000000009 }
      rfl).2 (by decide)⟩

theorem getFastfetchOutput_cache (s : Server) (c : Call) :
    ((getFastfetchOutput s c).server.cache).map CacheEntry.Output
      = if 0 < (getFastfetchOutput s c).probes ∧ c.probe.2 = none then some c.probe.1
        else s.cache.map CacheEntry.Output := by
  have hexec : ((execFastfetch s c).server.cache).map CacheEntry.Output
      = if 0 < (execFastfetch s c).probes ∧ c.probe.2 = none then some c.probe.1
        else s.cache.map CacheEntry.Output := by
    rcases hpr : c.probe with ⟨out, perr⟩
    cases perr with
    | none => simp [execFastfetch, hpr]
    | some msg => simp [execFastfetch, hpr]
  unfold getFastfetchOutput
  cases hcache : s.cache with
  | none =>
    simp only
    rw [hexec, hcache]
  | some entry =>
    by_cases hfresh : Since c.sinceClock entry.Timestamp < Minute
    · simp [hfresh, hcache]
    · simp only [hfresh, if_false]
      rw [hexec, hcache]

theorem run_lastFetched (calls : List Call) :
    ∀ s : Server, ((run s calls).cache).map CacheEntry.Output
      = lastFetched (s.cache.map CacheEntry.Output) s calls := by
  induction calls with
  | nil => intro s; rfl
  | cons c calls ih =>
    intro s
    simp only [run, lastFetched]
    rw [ih, getFastfetchOutput_cache]

theorem getFastfetchOutput_keeps (s : Server) (c : Call) (h : s.cache.isSome = true) :
    (getFastfetchOutput s c).server.cache.isSome = true := by
  have hmap := getFastfetchOutput_cache s c
  cases hnew : (getFastfetchOutput s c).server.cache with
  | some _ => rfl
  | none =>
    rw [hnew] at hmap
    cases hold : s.cache with
    | none => rw [hold] at h; exact absurd h (by simp)
    | some entry =>
      rw [hold] at hmap
      split_ifs at hmap <;> simp at hmap

theorem run_keeps (calls : List Call) :
    ∀ s : Server, s.cache.isSome = true → (run s calls).cache.isSome = true := by
  induction calls with
  | nil => intro s h; exact h
  | cons c calls ih =>
    intro s h
    exact ih _ (getFastfetchOutput_keeps s c h)

/-- C16: cache entries are replaced, never deleted.  After every sequence of
sequential calls on a new server, whatever the clock reads and whether the
command succeeds or fails, the output stored in the cache is the output of the
most recent command run that succeeded, and the cache is empty exactly when no
run has succeeded yet; and once a server holds an entry, it holds an entry
after every further call and sequence of calls. -/
theorem C16_entries_never_deleted (calls : List Call) :
    ((run NewServer calls).cache).map CacheEntry.Output = lastFetched none NewServer calls
      ∧ ((run NewServer calls).cache = none ↔ lastFetched none NewServer calls = none)
      ∧ (∀ (s : Server) (c : Call), s.cache.isSome = true →
          (getFastfetchOutput s c).server.cache.isSome = true)
      ∧ (∀ (s : Server) (later : List Call), s.cache.isSome = true →
          (run s later).cache.isSome = true) := by
  have h : ((run NewServer calls).cache).map CacheEntry.Output
      = lastFetched none NewServer calls := run_lastFetched calls NewServer
  refine ⟨h, ?_, getFastfetchOutput_keeps, fun s later => run_keeps later s⟩
  rw [← h]
  cases (run NewServer calls).cache <;> simp

/-- C16 at a failed run, a successful run, a hit, and a failed run on the stale
entry: the entry of the successful run is still there. -/
theorem C16_entries_never_deleted_witness :
    ((run NewServer
        [ { sinceClock := 0, probe := ([], some "exit status 1"), nowClock := 1 },
          { sinceClock := 2, probe := (ascii "first", none), nowClock := 3 },
          { sinceClock := 4, probe := (ascii "unused", none), nowClock := 5 },
          { sinceClock := 70000000000, probe := (ascii "partial", some "killed"),
            nowClock := 70000000001 } ]).cache).map CacheEntry.Output
      = some (ascii "first")
    ∧ (run { cache := some { Output := ascii "first", Timestamp := 3 } }
        [ { sinceClock := 70000000000, probe := (ascii "partial", some "killed"),
            nowClock := 70000000001 } ]).cache.isSome = true :=
  ⟨(C16_entries_never_deleted
      [ { sinceClock := 0, probe := ([], some "exit status 1"), nowClock := 1 },
        { sinceClock := 2, probe := (ascii "first", none), nowClock := 3 },
        { sinceClock := 4, probe := (ascii "unused", none), nowClock := 5 },
        { sinceClock := 70000000000, probe := (ascii "partial", some "killed"),
          nowClock := 70000000001 } ]).1.trans (by decide),
    (C16_entries_never_deleted []).2.2.2
      { cache := some { Output := ascii "first", Timestamp := 3 } }
      [ { sinceClock := 70000000000, probe := (ascii "partial", some "killed"),
          nowClock := 70000000001 } ] rfl⟩

/-! ## Scopes, the bare reset and extended colour sequences -/

theorem Contains.mem {needle hay : Bytes} (h : Contains needle hay) :
    ∀ b ∈ needle, b ∈ hay := by
  obtain ⟨pre, post, rfl⟩ := h
  intro b hb
  simp [hb]

theorem colorTable_emitted : ∀ e ∈ colorTable,
    ParamString e.1 ∧ emitted e.1 = spanTag e.2
      ∧ emitted (ascii "38;5;" ++ e.1) = spanTag e.2
      ∧ emitted (ascii "48;5;" ++ e.1) = spanTag e.2 := by
  decide

/-- C17 as stated fails: `"\x1b[31mX"` converts to the red opening tag and `X`;
no closing tag follows. -/
theorem C17_open_scope_not_closed :
    convertANSIToHTML (ascii "\x1b[31mX") = ascii "<span style=\"color: #ff0000\">X"
      ∧ ¬ Contains (ascii "</span>") (convertANSIToHTML (ascii "\x1b[31mX")) := by
  refine ⟨by decide, fun h => ?_⟩
  have hslash : (47 : Nat) ∈ convertANSIToHTML (ascii "\x1b[31mX") :=
    h.mem 47 (by decide)
  exact absurd hslash (by decide)

/-- C17, amended: the converter appends nothing at the end of its output.  For
every colour code `c` of the table and every text `t` without an `ESC` byte,
`ESC [ c m ++ t` converts to the opening tag of `c` followed by `t` and nothing
else: the scope opened by a colour sequence with no following reset stays
open. -/
theorem C17_nothing_appended (code style t : Bytes)
    (hc : colorMap code = some style) (ht : ESC ∉ t) :
    convertANSIToHTML (sgr code ++ t) = spanTag style ++ t := by
  obtain ⟨hp, hem, _, _⟩ := colorTable_emitted (code, style) (colorMap_mem hc)
  have h := convert_weave [] [(code, t)] (by simp) (by simpa using ⟨hp, ht⟩)
  simp only [weave, List.nil_append, List.append_nil] at h
  rw [h, hem]

/-- C17 amended at `"\x1b[92mok\n"`: the bright green opening tag, then the text. -/
theorem C17_nothing_appended_witness :
    colorMap (ascii "92") = some (ascii "color: #66ff66")
      ∧ convertANSIToHTML (ascii "\x1b[92mok\n") = ascii "<span style=\"color: #66ff66\">ok\n" :=
  ⟨by decide,
    C17_nothing_appended (ascii "92") (ascii "color: #66ff66") (ascii "ok\n")
      (by decide) (by decide)⟩

/-- C18: the bare sequence `ESC [ m` is not a reset.  The first pass leaves it
in place, the cleanup pass removes it, and it converts to the empty text;
`ESC [ 0 m` and `ESC [ ; m` convert to `</span>`; codes are compared as exact
strings, so `ESC [ 0 0 m` converts to the empty text. -/
theorem C18_bare_reset_not_a_reset :
    convertANSIToHTML (ascii "\x1b[m") = []
      ∧ ReplaceAllStringFunc ansiRegex (ascii "\x1b[m") replaceCallback = ascii "\x1b[m"
      ∧ ReplaceAllString cleanRegex (ascii "\x1b[m") [] = []
      ∧ convertANSIToHTML (ascii "\x1b[0m") = ascii "</span>"
      ∧ convertANSIToHTML (ascii "\x1b[;m") = ascii "</span>"
      ∧ convertANSIToHTML (ascii "\x1b[00m") = [] := by
  decide

/-- C19: the parameters of extended-colour and background sequences are read as
separate foreground codes.  For every key `n` of the colour table,
`ESC [ 38;5;n m` and `ESC [ 48;5;n m` both convert to the opening tag of `n`,
and `ESC [ 38;5;0 m` converts to `</span>`. -/
theorem C19_extended_colour_parameters (n style : Bytes) (hn : colorMap n = some style) :
    convertANSIToHTML (sgr (ascii "38;5;" ++ n)) = spanTag style
      ∧ convertANSIToHTML (sgr (ascii "48;5;" ++ n)) = spanTag style
      ∧ convertANSIToHTML (ascii "\x1b[38;5;0m") = ascii "</span>" := by
  obtain ⟨hp, _, h38, h48⟩ := colorTable_emitted (n, style) (colorMap_mem hn)
  have hpre38 : ParamString (ascii "38;5;") := by decide
  have hpre48 : ParamString (ascii "48;5;") := by decide
  have hp38 : ParamString (ascii "38;5;" ++ n) := by
    intro b hb
    rcases List.mem_append.mp hb with hb | hb
    · exact hpre38 b hb
    · exact hp b hb
  have hp48 : ParamString (ascii "48;5;" ++ n) := by
    intro b hb
    rcases List.mem_append.mp hb with hb | hb
    · exact hpre48 b hb
    · exact hp b hb
  refine ⟨?_, ?_, by decide⟩
  · rw [convert_sgr hp38, h38]
  · rw [convert_sgr hp48, h48]

/-- C19 at `n = 31`: `"\x1b[38;5;31m"` and `"\x1b[48;5;31m"` give the red opening tag. -/
theorem C19_extended_colour_parameters_witness :
    colorMap (ascii "31") = some (ascii "color: #ff0000")
      ∧ convertANSIToHTML (ascii "\x1b[38;5;31m") = ascii "<span style=\"color: #ff0000\">"
      ∧ convertANSIToHTML (ascii "\x1b[48;5;31m") = ascii "<span style=\"color: #ff0000\">" :=
  ⟨by decide,
    (C19_extended_colour_parameters (ascii "31") (ascii "color: #ff0000") (by decide)).1,
    (C19_extended_colour_parameters (ascii "31") (ascii "color: #ff0000") (by decide)).2.1⟩

end DummyWebApp
